import Mathlib

/-
  Verification development for the fonapi crawler (src/crawler/crawler.py).

  Shallow embedding: the HTML fragments handed to `parse_table` are modelled
  as the essential DOM content BeautifulSoup extracts from them (a tbody as a
  list of rows, each row carrying the texts of its th cells and td cells);
  Python str.strip() is modelled by pyStrip; Python dict(zip(header, cols))
  is modelled as an insertion-ordered association list with last-value-wins
  update, matching CPython dict semantics.
-/

set_option autoImplicit false

namespace Fonapi

/-- One tr element: the texts of its th cells and of its td cells, in
document order.  `parse_table` reads th texts from the first row (the header)
and td texts from every later row. -/
structure HtmlRow where
  th : List String
  td : List String
deriving DecidableEq

/-- The tbody element found in the markup: its tr rows in document order. -/
structure HtmlTable where
  rows : List HtmlRow
deriving DecidableEq

/-- A parsed record: Python dict with string keys and values, modelled as an
insertion-ordered association list. -/
abbrev Row := List (String × String)

def dropLeadingWs : List Char → List Char
  | [] => []
  | c :: cs => if c.isWhitespace then dropLeadingWs cs else c :: cs

/-- Python str.strip(): remove leading and trailing whitespace. -/
def pyStrip (s : String) : String :=
  String.mk ((dropLeadingWs ((dropLeadingWs s.data).reverse)).reverse)

/-- CPython dict update: if the key is present, its value is replaced in
place (position kept); otherwise the pair is appended at the end. -/
def dictUpd (d : Row) (k v : String) : Row :=
  if d.any (fun p => p.1 = k) then
    d.map (fun p => if p.1 = k then (k, v) else p)
  else d ++ [(k, v)]

/-- Python dict(zip(hs, cs)): fold the positional pairs (truncated to the
shorter list, as zip does) into an empty dict. -/
def dictZip (hs cs : List String) : Row :=
  (hs.zip cs).foldl (fun d p => dictUpd d p.1 p.2) []

/-- Embedding of crawler.parse_table (crawler.py lines 83-95): pop the first
row as header, take its th texts stripped; for every remaining row take the
td texts stripped and build dict(zip(header, cols)).  An empty row list means
rows.pop(0) raises IndexError, modelled as none. -/
def parse_table (t : HtmlTable) : Option (List Row) :=
  match t.rows with
  | [] => none
  | hr :: rest =>
    let header := hr.th.map pyStrip
    some (rest.map (fun r => dictZip header (r.td.map pyStrip)))

/- ### Association-list lemmas for dictUpd / dictZip -/

theorem keys_map_upd (d : Row) (k v : String) :
    (d.map (fun p => if p.1 = k then (k, v) else p)).map Prod.fst
      = d.map Prod.fst := by
  induction d with
  | nil => rfl
  | cons p d ih =>
    simp only [List.map_cons, ih, List.cons.injEq, and_true]
    split <;> simp_all

theorem dictUpd_keys (d : Row) (k v k2 : String) :
    k2 ∈ (dictUpd d k v).map Prod.fst ↔ k2 ∈ d.map Prod.fst ∨ k2 = k := by
  unfold dictUpd
  split
  · rename_i hany
    rw [keys_map_upd]
    constructor
    · exact Or.inl
    · rintro (h | rfl)
      · exact h
      · obtain ⟨p, hp, hpk⟩ := List.any_eq_true.mp hany
        simp only [decide_eq_true_eq] at hpk
        exact hpk ▸ List.mem_map_of_mem Prod.fst hp
  · simp [List.mem_append]

theorem dictUpd_mem (d : Row) (k v : String) (kv : String × String)
    (h : kv ∈ dictUpd d k v) : kv ∈ d ∨ kv = (k, v) := by
  unfold dictUpd at h
  split at h
  · obtain ⟨p, hp, hpk⟩ := List.mem_map.mp h
    by_cases hc : p.1 = k
    · right; rw [← hpk]; simp [hc]
    · left; simp only [hc, if_neg, not_false_iff] at hpk; exact hpk ▸ hp
  · rcases List.mem_append.mp h with h1 | h1
    · exact Or.inl h1
    · right; simpa using h1

theorem foldl_upd_keys (ps : List (String × String)) (acc : Row) (k : String) :
    k ∈ (ps.foldl (fun d p => dictUpd d p.1 p.2) acc).map Prod.fst ↔
      k ∈ acc.map Prod.fst ∨ k ∈ ps.map Prod.fst := by
  induction ps generalizing acc with
  | nil => simp
  | cons p ps ih =>
    simp only [List.foldl_cons, ih, dictUpd_keys, List.map_cons, List.mem_cons]
    tauto

theorem foldl_upd_mem (ps : List (String × String)) (acc : Row)
    (kv : String × String)
    (h : kv ∈ ps.foldl (fun d p => dictUpd d p.1 p.2) acc) :
    kv ∈ acc ∨ kv ∈ ps := by
  induction ps generalizing acc with
  | nil =>
    simp only [List.foldl_nil] at h
    exact Or.inl h
  | cons p ps ih =>
    rcases ih _ h with h1 | h1
    · rcases dictUpd_mem _ _ _ _ h1 with h2 | h2
      · exact Or.inl h2
      · right; simp [h2]
    · right; exact List.mem_cons_of_mem _ h1

theorem map_fst_zip_eq_take {α β : Type} (l1 : List α) (l2 : List β) :
    (l1.zip l2).map Prod.fst = l1.take l2.length := by
  induction l1 generalizing l2 with
  | nil => simp
  | cons a l1 ih =>
    cases l2 with
    | nil => simp
    | cons b l2 => simp [ih]

theorem dictZip_keys (hs cs : List String) (hlen : hs.length ≤ cs.length)
    (k : String) : k ∈ (dictZip hs cs).map Prod.fst ↔ k ∈ hs := by
  unfold dictZip
  rw [foldl_upd_keys, map_fst_zip_eq_take, List.take_of_length_le hlen]
  simp

theorem dictZip_mem (hs cs : List String) (kv : String × String)
    (h : kv ∈ dictZip hs cs) : kv ∈ hs.zip cs := by
  unfold dictZip at h
  rcases foldl_upd_mem _ _ _ h with h1 | h1
  · simp at h1
  · exact h1

theorem foldl_upd_of_disjoint (ps : List (String × String)) (acc : Row)
    (hnd : (ps.map Prod.fst).Nodup)
    (hdisj : ∀ k ∈ ps.map Prod.fst, k ∉ acc.map Prod.fst) :
    ps.foldl (fun d p => dictUpd d p.1 p.2) acc = acc ++ ps := by
  induction ps generalizing acc with
  | nil => simp
  | cons p ps ih =>
    have hp : p.1 ∉ acc.map Prod.fst := hdisj p.1 (by simp)
    have hupd : dictUpd acc p.1 p.2 = acc ++ [p] := by
      have hcnot : ¬ ((acc.any (fun q => q.1 = p.1)) = true) := by
        intro hc
        obtain ⟨q, hq, hqk⟩ := List.any_eq_true.mp hc
        simp only [decide_eq_true_eq] at hqk
        exact hp (hqk ▸ List.mem_map_of_mem Prod.fst hq)
      unfold dictUpd
      rw [if_neg hcnot]
    rw [List.foldl_cons, hupd,
      ih (acc ++ [p]) (by simpa using (List.nodup_cons.mp (by simpa using hnd)).2)]
    · simp
    · intro k hk
      simp only [List.map_append, List.mem_append, List.map_cons, not_or]
      refine ⟨hdisj k (by simp [hk]), ?_⟩
      have hne : k ≠ p.1 := by
        intro h
        exact ((List.nodup_cons.mp (by simpa using hnd)).1 (h ▸ hk))
      simpa using hne

theorem dictZip_of_nodup (hs cs : List String) (hnd : hs.Nodup) :
    dictZip hs cs = hs.zip cs := by
  unfold dictZip
  rw [foldl_upd_of_disjoint]
  · simp
  · rw [map_fst_zip_eq_take]
    exact hnd.sublist (List.take_sublist _ _)
  · simp

theorem zip_getElem_eq {α β : Type} (l1 : List α) (l2 : List β) (i : Nat)
    (h1 : i < l1.length) (h2 : i < l2.length) :
    (l1.zip l2)[i]? = some (l1.get ⟨i, h1⟩, l2.get ⟨i, h2⟩) := by
  induction l1 generalizing l2 i with
  | nil => simp at h1
  | cons a l1 ih =>
    cases l2 with
    | nil => simp at h2
    | cons b l2 =>
      cases i with
      | zero => simp
      | succ i =>
        simp only [List.zip_cons_cons, List.getElem?_cons_succ]
        exact ih l2 i (Nat.lt_of_succ_lt_succ h1) (Nat.lt_of_succ_lt_succ h2)

/- ### Crawl loop (crawler.parse_pages, lines 98-130)

The live Selenium driver is replaced by a script: for each page the table
content the driver would return, whether the next-page button is present
(`hasNext`), and whether the wait after clicking it confirms the new page
within the bound (`advanceOk`).  `parse_pagesAux` mirrors the while-loop:
read content, parse, append one batch, query the next button once, then
either advance (page counter + 1) or break. -/

structure PageScript where
  table : HtmlTable
  hasNext : Bool
  advanceOk : Bool
deriving DecidableEq

inductive CrawlError
  | parseError
  | sessionTimeout
  | noSuchElement
deriving DecidableEq

/-- Observable outcome of the loop: the batches appended to the output file
in order, how many times the next-page control was queried, the final value
of the page counter, and the exception the loop raised, if any. -/
structure CrawlResult where
  appended : List (List Row)
  nextQueries : Nat
  finalPage : Nat
  error : Option CrawlError
deriving DecidableEq

def parse_pagesAux : Nat → List PageScript → CrawlResult
  | pageNo, [] => ⟨[], 0, pageNo, some CrawlError.noSuchElement⟩
  | pageNo, p :: rest =>
    match parse_table p.table with
    | none => ⟨[], 0, pageNo, some CrawlError.parseError⟩
    | some rows =>
      if p.hasNext then
        if p.advanceOk then
          let r := parse_pagesAux (pageNo + 1) rest
          ⟨rows :: r.appended, r.nextQueries + 1, r.finalPage, r.error⟩
        else ⟨[rows], 1, pageNo, some CrawlError.sessionTimeout⟩
      else ⟨[rows], 1, pageNo, none⟩

/-- crawler.parse_pages: the loop starts with page = 1. -/
def parse_pages (ps : List PageScript) : CrawlResult :=
  parse_pagesAux 1 ps

/- ### Output serialization (crawler.py lines 110-114)

json.dumps(tabs, ensure_ascii=False) + a newline, utf-8 encoded.  At the
level of Unicode code points utf-8 encoding is the identity, so the write is
modelled as the string of characters produced.  The escaping below is the
CPython json encoder with ensure_ascii=False: only the quote, the backslash
and control characters below 0x20 are escaped; everything else, non-ASCII
included, is emitted verbatim. -/

def hexDigit : Nat → Char
  | 0 => '0' | 1 => '1' | 2 => '2' | 3 => '3' | 4 => '4'
  | 5 => '5' | 6 => '6' | 7 => '7' | 8 => '8' | 9 => '9'
  | 10 => 'a' | 11 => 'b' | 12 => 'c' | 13 => 'd' | 14 => 'e' | 15 => 'f'
  | _ => '0'

def escapeChar (c : Char) : List Char :=
  if c = '"' then ['\\', '"']
  else if c = '\\' then ['\\', '\\']
  else if c = '\n' then ['\\', 'n']
  else if c = '\t' then ['\\', 't']
  else if c = '\r' then ['\\', 'r']
  else if c = Char.ofNat 8 then ['\\', 'b']
  else if c = Char.ofNat 12 then ['\\', 'f']
  else if c.toNat < 32 then
    ['\\', 'u', '0', '0', hexDigit (c.toNat / 16), hexDigit (c.toNat % 16)]
  else [c]

/-- json.dumps of one string value. -/
def dumpsStr (s : String) : List Char :=
  '"' :: (s.data.map escapeChar).flatten ++ ['"']

/-- Python str.join with the default item separator of json.dumps. -/
def sepJoin : List (List Char) → List Char
  | [] => []
  | [x] => x
  | x :: y :: xs => x ++ ',' :: ' ' :: sepJoin (y :: xs)

/-- json.dumps of one row dict. -/
def dumpsRow (r : Row) : List Char :=
  Char.ofNat 123 ::
    sepJoin (r.map (fun p => dumpsStr p.1 ++ ':' :: ' ' :: dumpsStr p.2))
    ++ [Char.ofNat 125]

/-- json.dumps of tabs = a dict with the view name as its only key and the
list of row dicts as its value. -/
def dumpsBatch (view : String) (rows : List Row) : List Char :=
  Char.ofNat 123 ::
    (dumpsStr view ++ ':' :: ' ' ::
      ('[' :: sepJoin (rows.map dumpsRow) ++ [']']))
    ++ [Char.ofNat 125]

/-- The exact string appended to the gzip file for one page:
json.dumps(tabs, ensure_ascii=False) + a newline. -/
def appendLine (view : String) (rows : List Row) : String :=
  String.mk (dumpsBatch view rows ++ ['\n'])

/- ### Artifact naming and date validation (crawler.main, lines 152-216) -/

/-- Python start_date.replace(".", ""): drop every dot. -/
def stripDots (s : String) : String :=
  String.mk (s.data.filter (fun c => c ≠ '.'))

/-- crawler.py lines 202-207: the output file base name. -/
def artifactName (start_date end_date view : String) : String :=
  stripDots start_date ++ "-" ++ stripDots end_date ++ "-" ++ view
    ++ ".jsonl.gz"

structure Date where
  day : Nat
  month : Nat
  year : Nat
deriving DecidableEq

def isLeap (y : Nat) : Bool :=
  y % 4 == 0 && (y % 100 != 0 || y % 400 == 0)

def daysInMonth (m y : Nat) : Nat :=
  if m = 2 then (if isLeap y then 29 else 28)
  else if m = 4 ∨ m = 6 ∨ m = 9 ∨ m = 11 then 30
  else 31

def digitsToNat (cs : List Char) : Nat :=
  cs.foldl (fun n c => n * 10 + (c.toNat - 48)) 0

/-- Python str.split(".") on the character list. -/
def splitOnDot : List Char → List (List Char)
  | [] => [[]]
  | c :: cs =>
    let r := splitOnDot cs
    if c = '.' then [] :: r
    else (c :: r.headD []) :: r.tail

/-- datetime.strptime(s, a day-dot-month-dot-year pattern): three dot fields,
day and month of one or two digits, year of up to four digits, all digits,
and the result a valid calendar date. -/
def parseDate (s : String) : Option Date :=
  match splitOnDot s.data with
  | [ds, ms, ys] =>
    if ds.all Char.isDigit ∧ ms.all Char.isDigit ∧ ys.all Char.isDigit
        ∧ 1 ≤ ds.length ∧ ds.length ≤ 2 ∧ 1 ≤ ms.length ∧ ms.length ≤ 2
        ∧ 1 ≤ ys.length ∧ ys.length ≤ 4 then
      let d := digitsToNat ds
      let m := digitsToNat ms
      let y := digitsToNat ys
      if 1 ≤ d ∧ 1 ≤ m ∧ m ≤ 12 ∧ d ≤ daysInMonth m y ∧ 1 ≤ y then
        some ⟨d, m, y⟩
      else none
    else none
  | _ => none

/-- Calendar order on dates (year, then month, then day). -/
def dateLe (a b : Date) : Prop :=
  a.year < b.year ∨ (a.year = b.year ∧
    (a.month < b.month ∨ (a.month = b.month ∧ a.day ≤ b.day)))

instance (a b : Date) : Decidable (dateLe a b) := by
  unfold dateLe
  infer_instance

/-- Python string comparison: lexicographic on code points.  This is what
the assert on line 178 actually compares. -/
def strLeAux : List Char → List Char → Bool
  | [], _ => true
  | _ :: _, [] => false
  | a :: as, b :: bs =>
    if a < b then true else if b < a then false else strLeAux as bs

def pyStrLe (s t : String) : Bool :=
  strLeAux s.data t.data

/- ### The run (crawler.main, lines 152-216)

The browser session is replaced by a script: whether the no-data sentinel
text is on the page after the search, and the page scripts each tab view
would serve.  TAB_VIEWS, the artifact name, the validation order (format
check, then the string-comparison assert, then the no-data check, then the
per-view loop) and the abort-on-first-error behavior follow the source. -/

def TAB_VIEWS : List String := ["Genel", "Dagilim"]

structure SessionScript where
  noData : Bool
  genelPages : List PageScript
  dagilimPages : List PageScript
deriving DecidableEq

def viewPages (sess : SessionScript) (view : String) : List PageScript :=
  if view = "Genel" then sess.genelPages else sess.dagilimPages

inductive RunResult
  | formatError
  | rangeError
  | noData
  | aborted (done : List (String × CrawlResult))
  | completed (done : List (String × CrawlResult))
deriving DecidableEq

def runViews (start_date end_date : String) (sess : SessionScript) :
    List String → List (String × CrawlResult) → RunResult
  | [], done => RunResult.completed done.reverse
  | v :: vs, done =>
    let r := parse_pages (viewPages sess v)
    let art := (artifactName start_date end_date v, r)
    match r.error with
    | some _ => RunResult.aborted (art :: done).reverse
    | none => runViews start_date end_date sess vs (art :: done)

/-- crawler.main: argument defaulting, date-format validation, the
start-le-end assert on the raw strings, the no-data early return, then the
per-view crawl. -/
def main (start_arg : String) (end_arg : Option String)
    (sess : SessionScript) : RunResult :=
  let end_date := end_arg.getD start_arg
  match parseDate start_arg, parseDate end_date with
  | some _, some _ =>
    if pyStrLe start_arg end_date then
      if sess.noData then RunResult.noData
      else runViews start_arg end_date sess TAB_VIEWS []
    else RunResult.rangeError
  | _, _ => RunResult.formatError

/-- The output artifacts a run leaves on disk. -/
def RunResult.artifacts : RunResult → List (String × CrawlResult)
  | RunResult.aborted a => a
  | RunResult.completed a => a
  | _ => []

/-- Whether the run terminated by raising (non-zero exit). -/
def RunResult.isErrorExit : RunResult → Bool
  | RunResult.formatError => true
  | RunResult.rangeError => true
  | RunResult.aborted _ => true
  | _ => false

/- ### Loop composition lemma -/

/-- Running the loop over a block of pages that all parse, all show the next
control and all advance in time, followed by anything, appends that block's
batches, adds one next-control query per page, advances the page counter by
the block length, and then behaves as the loop on the remainder. -/
theorem parse_pagesAux_append (front ps2 : List PageScript) (pageNo : Nat)
    (h : ∀ p ∈ front, p.hasNext = true ∧ p.advanceOk = true ∧
      (parse_table p.table).isSome = true) :
    parse_pagesAux pageNo (front ++ ps2) =
      ⟨front.map (fun p => (parse_table p.table).getD [])
          ++ (parse_pagesAux (pageNo + front.length) ps2).appended,
        front.length + (parse_pagesAux (pageNo + front.length) ps2).nextQueries,
        (parse_pagesAux (pageNo + front.length) ps2).finalPage,
        (parse_pagesAux (pageNo + front.length) ps2).error⟩ := by
  induction front generalizing pageNo with
  | nil => simp
  | cons p front ih =>
    obtain ⟨hn, ha, hs⟩ := h p (List.mem_cons_self p front)
    obtain ⟨rows, hrows⟩ := Option.isSome_iff_exists.mp hs
    simp only [List.cons_append, parse_pagesAux, hrows, hn, ha, if_true,
      List.append_eq]
    rw [ih (pageNo + 1) (fun q hq => h q (List.mem_cons_of_mem p hq))]
    have harith : pageNo + 1 + front.length = pageNo + (p :: front).length := by
      simp only [List.length_cons]
      omega
    rw [harith]
    simp only [CrawlResult.mk.injEq, List.length_cons]
    refine ⟨?_, by omega, trivial, trivial⟩
    simp [hrows]

/-- Claim C1: for every well-formed table input (one header row of N cells,
every data row with exactly N cells) the parser succeeds with one record per
data row in row order; each record's key set equals the set of trimmed
header texts, and each of its entries pairs a trimmed header text with the
trimmed cell text at the same position of its row. -/
theorem c1_wellformed_table (hr : HtmlRow) (dataRows : List HtmlRow)
    (hcells : ∀ r ∈ dataRows, r.td.length = hr.th.length) :
    ∃ recs : List Row,
      parse_table ⟨hr :: dataRows⟩ = some recs ∧
      recs.length = dataRows.length ∧
      ∀ (j : Nat) (rec : Row) (row : HtmlRow),
        recs[j]? = some rec → dataRows[j]? = some row →
        ((∀ k : String, k ∈ rec.map Prod.fst ↔ k ∈ hr.th.map pyStrip) ∧
          ∀ kv ∈ rec, kv ∈ (hr.th.map pyStrip).zip (row.td.map pyStrip)) := by
  have hpt : parse_table ⟨hr :: dataRows⟩ = some (dataRows.map
      (fun r => dictZip (hr.th.map pyStrip) (r.td.map pyStrip))) := by
    simp [parse_table]
  refine ⟨_, hpt, by simp, ?_⟩
  intro j rec row hrec hrow
  rw [List.getElem?_map, hrow] at hrec
  simp only [Option.map_some'] at hrec
  have hmem : row ∈ dataRows := List.getElem?_mem hrow
  have hlen : (hr.th.map pyStrip).length ≤ (row.td.map pyStrip).length := by
    simp [hcells row hmem]
  obtain rfl := Option.some_inj.mp hrec
  exact ⟨fun k => dictZip_keys _ _ hlen k, fun kv hkv => dictZip_mem _ _ kv hkv⟩

/-- Witness for C1 at a concrete input: a header-only table parses to the
empty record sequence, never an error. -/
theorem c1_witness :
    ∃ recs, parse_table ⟨[⟨["Fon Kodu"], []⟩]⟩ = some recs ∧ recs.length = 0 := by
  obtain ⟨recs, h1, h2, _⟩ := c1_wellformed_table ⟨["Fon Kodu"], []⟩ [] (by simp)
  exact ⟨recs, h1, by simpa using h2⟩

/-- Claim C2: the page counter starts at 1 and the loop, on a view whose
first pages all show the next control and advance in time while the final
page does not, appends exactly one batch per page, queries the next control
exactly once per page (never an extra time), leaves the counter at the page
count, and terminates without error as soon as the control is absent. -/
theorem c2_crawl_loop_pagination (front : List PageScript) (lastp : PageScript)
    (hfront : ∀ p ∈ front, p.hasNext = true ∧ p.advanceOk = true ∧
      (parse_table p.table).isSome = true)
    (hparse : (parse_table lastp.table).isSome = true)
    (hlast : lastp.hasNext = false) :
    (parse_pages (front ++ [lastp])).appended.length = front.length + 1 ∧
    (parse_pages (front ++ [lastp])).nextQueries = front.length + 1 ∧
    (parse_pages (front ++ [lastp])).finalPage = front.length + 1 ∧
    (parse_pages (front ++ [lastp])).error = none := by
  obtain ⟨rows, hrows⟩ := Option.isSome_iff_exists.mp hparse
  have hone : parse_pagesAux (1 + front.length) [lastp]
      = ⟨[rows], 1, 1 + front.length, none⟩ := by
    simp [parse_pagesAux, hrows, hlast]
  unfold parse_pages
  rw [parse_pagesAux_append front [lastp] 1 hfront, hone]
  refine ⟨by simp, by simp, by simp [Nat.add_comm], rfl⟩

/-- Witness for C2 at a concrete one-page view. -/
theorem c2_witness :
    (parse_pages [⟨⟨[⟨["A"], []⟩]⟩, false, false⟩]).appended.length = 1 ∧
    (parse_pages [⟨⟨[⟨["A"], []⟩]⟩, false, false⟩]).nextQueries = 1 ∧
    (parse_pages [⟨⟨[⟨["A"], []⟩]⟩, false, false⟩]).finalPage = 1 ∧
    (parse_pages [⟨⟨[⟨["A"], []⟩]⟩, false, false⟩]).error = none := by
  have h := c2_crawl_loop_pagination [] ⟨⟨[⟨["A"], []⟩]⟩, false, false⟩
    (by simp) (by decide) rfl
  simpa using h

/-- Claim C8: when the advance after page k times out, the loop raises the
session timeout (not retried: the error field of the outcome), and the
artifact holds exactly the batches of pages 1 through k, whatever pages lay
beyond — nothing is removed and nothing further is appended. -/
theorem c8_timeout_retains (front : List PageScript) (pk : PageScript)
    (rest : List PageScript)
    (hfront : ∀ p ∈ front, p.hasNext = true ∧ p.advanceOk = true ∧
      (parse_table p.table).isSome = true)
    (hparse : (parse_table pk.table).isSome = true)
    (hnext : pk.hasNext = true) (hadv : pk.advanceOk = false) :
    (parse_pages (front ++ pk :: rest)).error = some CrawlError.sessionTimeout ∧
    (parse_pages (front ++ pk :: rest)).appended
      = (front ++ [pk]).map (fun p => (parse_table p.table).getD []) ∧
    (parse_pages (front ++ pk :: rest)).finalPage = front.length + 1 := by
  obtain ⟨rows, hrows⟩ := Option.isSome_iff_exists.mp hparse
  have hone : parse_pagesAux (1 + front.length) (pk :: rest)
      = ⟨[rows], 1, 1 + front.length, some CrawlError.sessionTimeout⟩ := by
    simp [parse_pagesAux, hrows, hnext, hadv]
  unfold parse_pages
  rw [parse_pagesAux_append front (pk :: rest) 1 hfront, hone]
  refine ⟨rfl, ?_, by simp [Nat.add_comm]⟩
  simp [hrows]

/-- Witness for C8 at a concrete input: the very first advance times out and
the single already-appended batch is retained. -/
theorem c8_witness :
    (parse_pages [⟨⟨[⟨["A"], []⟩]⟩, true, false⟩]).error
      = some CrawlError.sessionTimeout ∧
    (parse_pages [⟨⟨[⟨["A"], []⟩]⟩, true, false⟩]).appended = [[]] := by
  have h := c8_timeout_retains [] ⟨⟨[⟨["A"], []⟩]⟩, true, false⟩ []
    (by simp) (by decide) rfl rfl
  refine ⟨by simpa using h.1, ?_⟩
  have h2 := h.2.1
  simp only [List.nil_append, List.map_cons, List.map_nil] at h2
  rw [h2]
  decide

/-- Claim C10: on a data row whose cell count differs from the header count
(headers distinct after trimming), the parser does not fail: the row's
record is the positional pairing of trimmed headers with trimmed cells,
truncated to the shorter side — min(k, N) entries, excess cells dropped,
excess headers absent. -/
theorem c10_mismatch_truncation (hr : HtmlRow) (pre : List HtmlRow)
    (r : HtmlRow) (post : List HtmlRow)
    (hnd : (hr.th.map pyStrip).Nodup) :
    ∃ recs, parse_table ⟨hr :: (pre ++ r :: post)⟩ = some recs ∧
      recs[pre.length]?
        = some ((hr.th.map pyStrip).zip (r.td.map pyStrip)) ∧
      ((hr.th.map pyStrip).zip (r.td.map pyStrip)).length
        = min hr.th.length r.td.length ∧
      ∀ (i : Nat) (h1 : i < hr.th.length) (h2 : i < r.td.length),
        ((hr.th.map pyStrip).zip (r.td.map pyStrip))[i]? =
          some (pyStrip (hr.th.get ⟨i, h1⟩),
            pyStrip (r.td.get ⟨i, h2⟩)) := by
  have hpt : parse_table ⟨hr :: (pre ++ r :: post)⟩ = some ((pre ++ r :: post).map
      (fun q => dictZip (hr.th.map pyStrip) (q.td.map pyStrip))) := by
    simp [parse_table]
  refine ⟨_, hpt, ?_, by simp, ?_⟩
  · rw [List.getElem?_map, List.getElem?_append_right (Nat.le_refl _)]
    simp [dictZip_of_nodup _ _ hnd]
  · intro i h1 h2
    rw [zip_getElem_eq _ _ i (by simpa using h1) (by simpa using h2)]
    simp

/-- Witness for C10 at a concrete input: two headers, a one-cell row, the
record keeps the single positional pair. -/
theorem c10_witness :
    ∃ recs, parse_table ⟨[⟨["A", "B"], []⟩, ⟨[], ["x"]⟩]⟩ = some recs ∧
      recs[0]? = some [("A", "x")] := by
  obtain ⟨recs, h1, h2, _, _⟩ :=
    c10_mismatch_truncation ⟨["A", "B"], []⟩ [] ⟨[], ["x"]⟩ [] (by decide)
  refine ⟨recs, by simpa using h1, by simpa using h2⟩

/-- Claim C5 counterexample: a two-column header with a one-cell data row is
not surfaced as a parse error; the parser succeeds and silently truncates
the row to a single positional pair. -/
theorem c5_counterexample :
    parse_table ⟨[⟨["A", "B"], []⟩, ⟨[], ["x"]⟩]⟩ ≠ none ∧
    parse_table ⟨[⟨["A", "B"], []⟩, ⟨[], ["x"]⟩]⟩ = some [[("A", "x")]] := by
  decide

/-- Claim C5 (amended): whatever the cell counts of the data rows, a table
with a header row never produces a parse error — the parser succeeds, and
every entry of every record is one of the positional header-cell pairs of
some data row (the mismatch is silently truncated, not reported). -/
theorem c5_amended (hr : HtmlRow) (dataRows : List HtmlRow) :
    ∃ recs, parse_table ⟨hr :: dataRows⟩ = some recs ∧
      ∀ rec ∈ recs, ∃ row, row ∈ dataRows ∧
        ∀ kv ∈ rec,
          kv ∈ (hr.th.map pyStrip).zip (row.td.map pyStrip) := by
  have hpt : parse_table ⟨hr :: dataRows⟩ = some (dataRows.map
      (fun q => dictZip (hr.th.map pyStrip) (q.td.map pyStrip))) := by
    simp [parse_table]
  refine ⟨_, hpt, ?_⟩
  intro rec hrec
  obtain ⟨row, hrow, hfeq⟩ := List.mem_map.mp hrec
  exact ⟨row, hrow, fun kv hkv => dictZip_mem _ _ kv (hfeq ▸ hkv)⟩

/-- Claim C9: the table parser is a pure function of its input markup —
parsing equal inputs yields equal record sequences, with no other state
influencing the result (purity is expressed by `parse_table` being a
function of the markup alone). -/
theorem c9_parse_deterministic (t1 t2 : HtmlTable) (h : t1 = t2) :
    parse_table t1 = parse_table t2 := by
  rw [h]

/-- Witness for C9 at a concrete input. -/
theorem c9_witness :
    parse_table ⟨[⟨["A"], []⟩, ⟨[], ["x"]⟩]⟩
      = parse_table ⟨[⟨["A"], []⟩, ⟨[], ["x"]⟩]⟩ :=
  c9_parse_deterministic ⟨[⟨["A"], []⟩, ⟨[], ["x"]⟩]⟩
    ⟨[⟨["A"], []⟩, ⟨[], ["x"]⟩]⟩ rfl

/-- Claim C4 counterexample: for start 01.01.2020, end 05.01.2020, view
general, the artifact name the code builds is not the claimed
0101202005012020-general.jsonl.gz — the template puts a hyphen between the
two compacted dates. -/
theorem c4_counterexample :
    artifactName ("01.01.2020") ("05.01.2020") ("general")
      ≠ "0101202005012020-general.jsonl.gz" := by
  decide

/-- Claim C4 (amended): the artifact name is derived deterministically as
startCompact-endCompact-view.jsonl.gz with the dots stripped from each date;
for start 01.01.2020, end 05.01.2020, view general it is exactly
01012020-05012020-general.jsonl.gz. -/
theorem c4_amended :
    artifactName ("01.01.2020") ("05.01.2020") ("general")
      = "01012020-05012020-general.jsonl.gz" ∧
    ∀ s e v : String, artifactName s e v
      = stripDots s ++ "-" ++ stripDots e ++ "-" ++ v ++ ".jsonl.gz" := by
  exact ⟨by decide, fun s e v => rfl⟩

/- ### Serialization lemmas -/

theorem hexDigit_ne_newline (n : Nat) : hexDigit n ≠ '\n' := by
  unfold hexDigit
  split <;> decide

theorem newline_not_mem_escapeChar (c : Char) : '\n' ∉ escapeChar c := by
  unfold escapeChar
  split_ifs with g1 g2 g3 g4 g5 g6 g7 g8
  · decide
  · decide
  · decide
  · decide
  · decide
  · decide
  · decide
  · intro hmem
    simp only [List.mem_cons, List.mem_singleton] at hmem
    rcases hmem with h | h | h | h | h | h
    · exact absurd h (by decide)
    · exact absurd h (by decide)
    · exact absurd h (by decide)
    · exact absurd h (by decide)
    · exact hexDigit_ne_newline _ h.symm
    · rcases h with h | h
      · exact hexDigit_ne_newline _ h.symm
      · simp at h
  · intro hmem
    rw [List.mem_singleton] at hmem
    rw [← hmem] at g8
    exact g8 (by decide)

theorem newline_not_mem_dumpsStr (s : String) : '\n' ∉ dumpsStr s := by
  unfold dumpsStr
  intro hmem
  rcases List.mem_cons.mp hmem with h | h
  · exact absurd h (by decide)
  rcases List.mem_append.mp h with h | h
  · obtain ⟨l, hl, hcl⟩ := List.mem_flatten.mp h
    obtain ⟨c, _, hc⟩ := List.mem_map.mp hl
    exact newline_not_mem_escapeChar c (hc ▸ hcl)
  · exact absurd (List.mem_singleton.mp h) (by decide)

theorem newline_not_mem_sepJoin (parts : List (List Char))
    (h : ∀ p ∈ parts, '\n' ∉ p) : '\n' ∉ sepJoin parts := by
  induction parts with
  | nil => simp [sepJoin]
  | cons p ps ih =>
    cases ps with
    | nil => exact h p (by simp)
    | cons q qs =>
      intro hmem
      rw [sepJoin, List.mem_append] at hmem
      rcases hmem with hm | hm
      · exact h p (by simp) hm
      rcases List.mem_cons.mp hm with hm1 | hm1
      · exact absurd hm1 (by decide)
      rcases List.mem_cons.mp hm1 with hm2 | hm2
      · exact absurd hm2 (by decide)
      · exact ih (fun r hr => h r (List.mem_cons_of_mem p hr)) hm2

theorem newline_not_mem_dumpsRow (r : Row) : '\n' ∉ dumpsRow r := by
  unfold dumpsRow
  intro hmem
  rcases List.mem_cons.mp hmem with h | h
  · exact absurd h (by decide)
  rcases List.mem_append.mp h with h | h
  · refine newline_not_mem_sepJoin _ ?_ h
    intro part hpart
    obtain ⟨kv, _, hkv⟩ := List.mem_map.mp hpart
    rw [← hkv]
    intro hin
    rcases List.mem_append.mp hin with h1 | h1
    · exact newline_not_mem_dumpsStr _ h1
    rcases List.mem_cons.mp h1 with h2 | h2
    · exact absurd h2 (by decide)
    rcases List.mem_cons.mp h2 with h3 | h3
    · exact absurd h3 (by decide)
    · exact newline_not_mem_dumpsStr _ h3
  · exact absurd (List.mem_singleton.mp h) (by decide)

theorem newline_not_mem_dumpsBatch (view : String) (rows : List Row) :
    '\n' ∉ dumpsBatch view rows := by
  unfold dumpsBatch
  intro hmem
  rcases List.mem_cons.mp hmem with h | h
  · exact absurd h (by decide)
  rcases List.mem_append.mp h with h | h
  · rcases List.mem_append.mp h with h1 | h1
    · exact newline_not_mem_dumpsStr _ h1
    rcases List.mem_cons.mp h1 with h2 | h2
    · exact absurd h2 (by decide)
    rcases List.mem_cons.mp h2 with h3 | h3
    · exact absurd h3 (by decide)
    rcases List.mem_cons.mp h3 with h4 | h4
    · exact absurd h4 (by decide)
    rcases List.mem_append.mp h4 with h5 | h5
    · refine newline_not_mem_sepJoin _ ?_ h5
      intro part hpart
      obtain ⟨rr, _, hrr⟩ := List.mem_map.mp hpart
      exact hrr ▸ newline_not_mem_dumpsRow rr
    · exact absurd (List.mem_singleton.mp h5) (by decide)
  · exact absurd (List.mem_singleton.mp h) (by decide)

theorem escapeChar_eq_self (ch : Char) (h1 : ch ≠ '"') (h2 : ch ≠ '\\')
    (h3 : 32 ≤ ch.toNat) : escapeChar ch = [ch] := by
  have hn3 : ch ≠ '\n' := by
    intro h; rw [h] at h3; exact absurd h3 (by decide)
  have hn4 : ch ≠ '\t' := by
    intro h; rw [h] at h3; exact absurd h3 (by decide)
  have hn5 : ch ≠ '\r' := by
    intro h; rw [h] at h3; exact absurd h3 (by decide)
  have hn6 : ch ≠ Char.ofNat 8 := by
    intro h; rw [h] at h3; exact absurd h3 (by decide)
  have hn7 : ch ≠ Char.ofNat 12 := by
    intro h; rw [h] at h3; exact absurd h3 (by decide)
  have hn8 : ¬ (ch.toNat < 32) := by omega
  unfold escapeChar
  rw [if_neg h1, if_neg h2, if_neg hn3, if_neg hn4, if_neg hn5, if_neg hn6,
    if_neg hn7, if_neg hn8]

theorem flatten_escape_eq (l : List Char)
    (h : ∀ c ∈ l, c ≠ '"' ∧ c ≠ '\\' ∧ 32 ≤ c.toNat) :
    (l.map escapeChar).flatten = l := by
  induction l with
  | nil => rfl
  | cons c l ih =>
    obtain ⟨h1, h2, h3⟩ := h c (by simp)
    simp only [List.map_cons, List.flatten_cons, escapeChar_eq_self c h1 h2 h3]
    rw [ih (fun d hd => h d (List.mem_cons_of_mem c hd))]
    rfl

/-- Claim C3 counterexample: a page batch of two Rows is appended as a
single line (one newline in the whole write), not as one JSON object per
Row; and the record keys are the trimmed header texts, not the exact
original header text (header with spaces yields key A). -/
theorem c3_counterexample :
    (appendLine ("Genel") [[("A", "x")], [("A", "y")]]).data.count '\n' = 1 ∧
    parse_table ⟨[⟨[" A "], []⟩, ⟨[], ["x"]⟩]⟩ = some [[("A", "x")]] := by
  decide

/-- Claim C3 (amended): each appended write is exactly one line per page
batch — a single trailing newline and no newline inside the serialized JSON
object (whose row objects carry the trimmed header texts as keys and the
trimmed cell texts as values, as established for the parser) — and the
serialization preserves non-ASCII text: any string free of the JSON escape
set (quote, backslash, control characters) is emitted verbatim, unescaped. -/
theorem c3_amended (view : String) (rows : List Row) :
    (appendLine view rows).data.count '\n' = 1 ∧
    (appendLine view rows).data.getLast? = some '\n' ∧
    (∀ s : String, (∀ c ∈ s.data, c ≠ '"' ∧ c ≠ '\\' ∧ 32 ≤ c.toNat) →
      dumpsStr s = '"' :: s.data ++ ['"']) := by
  refine ⟨?_, ?_, ?_⟩
  · show (dumpsBatch view rows ++ ['\n']).count '\n' = 1
    rw [List.count_append,
      List.count_eq_zero.mpr (newline_not_mem_dumpsBatch view rows)]
    rfl
  · show (dumpsBatch view rows ++ ['\n']).getLast? = some '\n'
    exact List.getLast?_concat _
  · intro s hs
    unfold dumpsStr
    rw [flatten_escape_eq s.data hs]

/-- Witness for C3 at concrete inputs: a one-row batch is one line, and a
Turkish string with a non-ASCII letter is serialized verbatim. -/
theorem c3_witness :
    (appendLine ("Genel") [[("Fiyat", "1,23")]]).data.count '\n' = 1 ∧
    dumpsStr ("Fiyatı") = '"' :: ("Fiyatı").data ++ ['"'] :=
  ⟨(c3_amended ("Genel") [[("Fiyat", "1,23")]]).1,
    (c3_amended ("Genel") [[("Fiyat", "1,23")]]).2.2 ("Fiyatı") (by decide)⟩

/-- Claim C6: the code validates the range with a lexicographic comparison
of the raw day-first date strings, not a calendar comparison.  Both
divergence directions at concrete inputs: 01.12.2020 to 02.01.2020 is a
calendar-invalid range (start after end) that passes validation and
proceeds, while 02.01.2021 to 01.02.2021 is a calendar-valid range the run
rejects with the range error. -/
theorem c6_validation_divergence :
    parseDate ("01.12.2020") = some ⟨1, 12, 2020⟩ ∧
    parseDate ("02.01.2020") = some ⟨2, 1, 2020⟩ ∧
    ¬ dateLe ⟨1, 12, 2020⟩ ⟨2, 1, 2020⟩ ∧
    main ("01.12.2020") (some ("02.01.2020")) ⟨true, [], []⟩
      = RunResult.noData ∧
    parseDate ("02.01.2021") = some ⟨2, 1, 2021⟩ ∧
    parseDate ("01.02.2021") = some ⟨1, 2, 2021⟩ ∧
    dateLe ⟨2, 1, 2021⟩ ⟨1, 2, 2021⟩ ∧
    main ("02.01.2021") (some ("01.02.2021")) ⟨true, [], []⟩
      = RunResult.rangeError := by
  decide

/-- Claim C7: a validated range whose search immediately reports the no-data
sentinel ends the run normally — no error exit, zero output artifacts, no
view processed. -/
theorem c7_no_data_normal_return (start_arg end_arg : String)
    (sess : SessionScript) (d1 d2 : Date)
    (h1 : parseDate start_arg = some d1) (h2 : parseDate end_arg = some d2)
    (_h3 : dateLe d1 d2) (h4 : pyStrLe start_arg end_arg = true)
    (h5 : sess.noData = true) :
    main start_arg (some end_arg) sess = RunResult.noData ∧
    (main start_arg (some end_arg) sess).artifacts = [] ∧
    (main start_arg (some end_arg) sess).isErrorExit = false := by
  have hm : main start_arg (some end_arg) sess = RunResult.noData := by
    unfold main
    simp [h1, h2, h4, h5]
  exact ⟨hm, by rw [hm]; rfl, by rw [hm]; rfl⟩

/-- Witness for C7 at a concrete validated range with the no-data sentinel
present. -/
theorem c7_witness :
    main ("01.01.2020") (some ("05.01.2020")) ⟨true, [], []⟩
      = RunResult.noData ∧
    (main ("01.01.2020") (some ("05.01.2020"))
      (⟨true, [], []⟩ : SessionScript)).artifacts = [] ∧
    (main ("01.01.2020") (some ("05.01.2020"))
      (⟨true, [], []⟩ : SessionScript)).isErrorExit = false :=
  c7_no_data_normal_return ("01.01.2020") ("05.01.2020") ⟨true, [], []⟩
    ⟨1, 1, 2020⟩ ⟨5, 1, 2020⟩ (by decide) (by decide) (by decide) (by decide)
    rfl

end Fonapi
